import Mathlib

/-!
# transltr: a verification development for `main.go`

The program is one function, `run`: open a word-processing document, flatten
its paragraphs, translate the non-empty run texts of every paragraph with one
remote call per paragraph, lay originals and translations out side by side in a
two-column table, and save the result.

The embedding follows `run` statement by statement.  The collaborators that
live outside the repository (the document library, the language parser, the
translation client, the file system and the buffered writer) are parameters of
the model (`Env`) or small explicit state machines (`Writer`, `World`).
-/

namespace Transltr

/-! ## Data model of the document library, as far as `run` consults it -/

/-- Run-level formatting; `run` only reads and writes the bold flag. -/
structure RunProperties where
  isBold : Bool
deriving DecidableEq, Repr

/-- Paragraph-level formatting; `run` only reads the bold flag. -/
structure ParagraphProperties where
  isBold : Bool
deriving DecidableEq, Repr

/-- A run: a span of text with its formatting. -/
structure Run where
  text : String
  properties : RunProperties
deriving DecidableEq, Repr

/-- A paragraph: style name, formatting, and its runs in order. -/
structure Paragraph where
  style : String
  properties : ParagraphProperties
  runs : List Run
deriving DecidableEq, Repr

/-- A table cell holds paragraphs. -/
structure Cell where
  paragraphs : List Paragraph
deriving DecidableEq, Repr

/-- A table row holds cells. -/
structure Row where
  cells : List Cell
deriving DecidableEq, Repr

/-- Border style of a table (`wml.ST_Border`); only `none` is ever set. -/
inductive ST_Border where
  | none
  | single
deriving DecidableEq, Repr

/-- Table properties touched by `run`: width in percent and the border style
set on all sides (with colour `color.Auto` and thickness `0`). -/
structure TableProperties where
  widthPercent : Option Nat
  borders : Option (ST_Border × Nat)
deriving DecidableEq, Repr

/-- A table: properties and rows in order. -/
structure Table where
  properties : TableProperties
  rows : List Row
deriving DecidableEq, Repr

/-- A structured document tag (content block) holds paragraphs. -/
structure StructuredDocumentTag where
  paragraphs : List Paragraph
deriving DecidableEq, Repr

/-- A document: body paragraphs, structured document tags, tables. -/
structure Document where
  paragraphs : List Paragraph
  structuredDocumentTags : List StructuredDocumentTag
  tables : List Table
deriving DecidableEq, Repr

/-- The value of `document.New()`: an empty document. -/
def Document.New : Document := ⟨[], [], []⟩

/-- The value of `AddTable()`: a table without rows or properties. -/
def Table.empty : Table := ⟨⟨Option.none, Option.none⟩, []⟩

/-- The value of `AddParagraph()`: a paragraph without style, formatting, runs. -/
def Paragraph.empty : Paragraph := ⟨"", ⟨false⟩, []⟩

/-- The value of `AddRun()`: a run without text or formatting. -/
def Run.empty : Run := ⟨"", ⟨false⟩⟩

/-- The effect of `SetStyle`. -/
def Paragraph.SetStyle (p : Paragraph) (s : String) : Paragraph := { p with style := s }

/-- The effect of `AddText`: the text is appended to the content of the run. -/
def Run.AddText (r : Run) (s : String) : Run := { r with text := r.text ++ s }

/-- The effect of `Properties().SetBold`. -/
def Run.SetBold (r : Run) (b : Bool) : Run := { r with properties := ⟨b⟩ }

/-! ## The types of the program itself -/

/-- A translated run (`docRun`): the properties taken from the input
paragraph, the original text and its translation. -/
structure docRun where
  properties : RunProperties
  original : String
  translation : String
deriving DecidableEq, Repr

/-- A translated paragraph (`docParagraph`). -/
structure docParagraph where
  properties : ParagraphProperties
  style : String
  runs : List docRun
deriving DecidableEq, Repr

/-! ## The collaborators -/

/-- A parsed language tag (`language.Tag`). -/
structure Tag where
  code : String
deriving DecidableEq, Repr

/-- One element of a translation reply (`translate.Translation`); `run` reads
only its `Text`. -/
structure Translation where
  Text : String
deriving DecidableEq, Repr

/-- What a translate call came back with: an error or the translations. -/
inductive Reply where
  | failure (err : String)
  | success (translations : List Translation)
deriving DecidableEq, Repr

/-- A record of one call of `client.Translate`: the batch, the target
language, and what came back. -/
structure TranslateCall where
  texts : List String
  target : Tag
  reply : Reply
deriving DecidableEq, Repr

/-- The translation client.  The remote service is deterministic in the model
but may answer depending on everything it was asked before: `Translate` takes
the record of the earlier calls, the batch, and the target language. -/
structure Client where
  Translate : List TranslateCall → List String → Tag → Reply

/-- One operation the document serializer performs on the writer it is given. -/
inductive WriterOp where
  | write (bytes : List Nat)
  | flush
deriving DecidableEq, Repr

/-- The environment of one execution: the value of the `doc` flag and the
behaviour of the external functions `run` calls. -/
structure Env where
  /-- The value of the command line flag `doc`. -/
  docFlag : String
  /-- Models `document.Open`. -/
  openDocument : String → Except String Document
  /-- Models `language.Parse`. -/
  parseLanguage : String → Except String Tag
  /-- Models `translate.NewClient`. -/
  newClient : Except String Client
  /-- Models `os.Create` on the output path: an error, or success. -/
  createFile : Option String
  /-- Models `outputDoc.Save`: the operations it performs on the writer, in
  order, and the error it returns, if any.  The serializer is library code; it
  writes through an archive writer that adopts the buffered writer it is handed
  and flushes that writer when the archive is closed, so its operations end
  with a flush.  `run` itself never flushes; the theorem about the written file
  takes the closing flush of the serializer as a hypothesis. -/
  save : Document → List WriterOp × Option String

/-- The observable state `run` acts on. -/
structure World where
  /-- Lines printed to standard output. -/
  stdout : List String
  /-- The calls made to the translation client so far. -/
  calls : List TranslateCall
  /-- The bytes of `./document-output.docx`; `none` when it does not exist. -/
  outputFile : Option (List Nat)
  /-- Whether `run` holds an open handle on the output file. -/
  outputOpen : Bool
deriving DecidableEq, Repr

/-- The errors `run` returns, one constructor per `return fmt.Errorf`. -/
inductive RunError where
  | openDocument (err : String)
  | parseLanguage (err : String)
  | createClient (err : String)
  | translate (err : String)
  | createFile (err : String)
  | saveDocument (err : String)
deriving DecidableEq, Repr

/-- How an execution of `run` ends. -/
inductive Outcome where
  /-- The statement `return nil`. -/
  | success
  /-- The statement `return fmt.Errorf ...`. -/
  | failed (err : RunError)
  /-- The call `log.Fatal` ends the process before `run` returns. -/
  | fatal (msg : String)
  /-- A run-time panic: index out of range `[index]` with length `len`. -/
  | panicked (index len : Nat)
deriving DecidableEq, Repr

/-! ## Lines 52-60: flattening the paragraphs -/

/-- The loops that collect the paragraphs: body paragraphs are appended one by
one, then for every structured document tag its paragraphs, one by one. -/
def flattenParagraphs (inputDoc : Document) : List Paragraph :=
  let paragraphs : List Paragraph := []
  let paragraphs := inputDoc.paragraphs.foldl (fun acc p => acc ++ [p]) paragraphs
  inputDoc.structuredDocumentTags.foldl
    (fun acc sdt => sdt.paragraphs.foldl (fun acc p => acc ++ [p]) acc) paragraphs

/-! ## Lines 80-87: extracting the texts of a paragraph -/

/-- The extraction loop: the text of every run whose text is not the empty
string is appended to `texts`. -/
def extractTexts (paragraph : Paragraph) : List String :=
  paragraph.runs.foldl
    (fun texts inputRun =>
      let text := inputRun.text
      if text ≠ "" then texts ++ [text] else texts)
    []

/-! ## Lines 98-104: pairing translations with originals -/

/-- The pairing loop `for i, tr := range translations`, started at index `i`
with `acc` the runs appended so far.  Both `paragraph.Runs()[i]` and `texts[i]`
are checked index accesses: out of range they panic. -/
def pairLoop (runs : List Run) (texts : List String) :
    Nat → List Translation → List docRun → Except Outcome (List docRun)
  | _, [], acc => .ok acc
  | i, tr :: rest, acc =>
    match runs[i]? with
    | Option.none => .error (.panicked i runs.length)
    | some r =>
      match texts[i]? with
      | Option.none => .error (.panicked i texts.length)
      | some t =>
        pairLoop runs texts (i + 1) rest
          (acc ++ [{ properties := r.properties, original := t, translation := tr.Text }])

/-- The pairing loop of one paragraph, from index `0` and an empty `docP.runs`. -/
def pairRuns (paragraph : Paragraph) (texts : List String)
    (translations : List Translation) : Except Outcome (List docRun) :=
  pairLoop paragraph.runs texts 0 translations []

/-! ## Lines 74-107: the paragraph loop -/

/-- The loop over the flattened paragraphs.  `docParagraphs` is the slice built
so far and `calls` the record of the translate calls made so far.  The result
is the final slice, or the way the loop left `run` (an error return or a
panic), together with the calls made. -/
def translateParagraphs (client : Client) (target : Tag) :
    List Paragraph → List docParagraph → List TranslateCall →
      Except Outcome (List docParagraph) × List TranslateCall
  | [], docParagraphs, calls => (.ok docParagraphs, calls)
  | paragraph :: rest, docParagraphs, calls =>
    let texts := extractTexts paragraph
    if texts.length = 0 then
      translateParagraphs client target rest docParagraphs calls
    else
      let reply := client.Translate calls texts target
      let calls := calls ++ [{ texts := texts, target := target, reply := reply }]
      match reply with
      | .failure err => (.error (.failed (.translate err)), calls)
      | .success translations =>
        match pairRuns paragraph texts translations with
        | .error o => (.error o, calls)
        | .ok runs =>
          translateParagraphs client target rest
            (docParagraphs ++
              [{ style := paragraph.style, properties := paragraph.properties, runs := runs }])
            calls

/-! ## Lines 109-137: assembling the output document -/

/-- The body of the inner loop over `p.runs`: one run is added to the left
paragraph and one to the right paragraph, and the run counter goes up. -/
def addRunPair (p : docParagraph) (st : Paragraph × Paragraph × Nat) (docR : docRun) :
    Paragraph × Paragraph × Nat :=
  let inputParagraph := st.1
  let outputParagraph := st.2.1
  let runCounter := st.2.2 + 1
  let inputRun := Run.empty
  let inputRun := inputRun.AddText docR.original
  let inputRun := inputRun.SetBold (docR.properties.isBold || p.properties.isBold)
  let outputRun := Run.empty
  let outputRun := outputRun.AddText docR.translation
  let outputRun := outputRun.SetBold docR.properties.isBold
  ({ inputParagraph with runs := inputParagraph.runs ++ [inputRun] },
   { outputParagraph with runs := outputParagraph.runs ++ [outputRun] },
   runCounter)

/-- The body of the outer loop over `docParagraphs`: one row with two cells,
each with one paragraph, is added to the table. -/
def addRow (st : Table × Nat × Nat) (p : docParagraph) : Table × Nat × Nat :=
  let table := st.1
  let paragraphCounter := st.2.1 + 1
  let runCounter := st.2.2
  let inputParagraph := Paragraph.empty.SetStyle p.style
  let outputParagraph := Paragraph.empty.SetStyle p.style
  let r := p.runs.foldl (addRunPair p) (inputParagraph, outputParagraph, runCounter)
  let row : Row := ⟨[⟨[r.1]⟩, ⟨[r.2.1]⟩]⟩
  ({ table with rows := table.rows ++ [row] }, paragraphCounter, r.2.2)

/-- The assembler: a new document with one table (full width, no borders) and
one row per translated paragraph; also the two counters.  The source comment
on the borders speaks of thick borders; the statement sets the border style
`ST_BorderNone` with thickness `0`, and that is what is modelled. -/
def assemble (docParagraphs : List docParagraph) : Document × Nat × Nat :=
  let outputDoc := Document.New
  let table := Table.empty
  let table := { table with properties := { table.properties with widthPercent := some 100 } }
  let table := { table with properties := { table.properties with borders := some (.none, 0) } }
  let r := docParagraphs.foldl addRow (table, 0, 0)
  ({ outputDoc with tables := outputDoc.tables ++ [r.1] }, r.2.1, r.2.2)

/-! ## Lines 141-154: writing the output file through a buffered writer -/

/-- The default buffer size of `bufio.NewWriter`. -/
def defaultBufSize : Nat := 4096

/-- A `bufio.Writer` over the output file: the bytes accepted but not yet
handed to the file. -/
structure Writer where
  buf : List Nat
deriving DecidableEq, Repr

/-- The free space of the buffer. -/
def Writer.Available (b : Writer) : Nat := defaultBufSize - b.buf.length

/-- The operation `Flush`: the buffered bytes go to the file. -/
def Writer.Flush (b : Writer) (file : List Nat) : Writer × List Nat :=
  (⟨[]⟩, file ++ b.buf)

/-- The operation `Write`: bytes that fit are kept in the buffer; a write that
does not fit fills and flushes the buffer first, and a write larger than an
empty buffer goes to the file directly. -/
def Writer.Write (b : Writer) (file : List Nat) (p : List Nat) : Writer × List Nat :=
  if p.length ≤ b.Available then (⟨b.buf ++ p⟩, file)
  else if b.buf.length = 0 then (b, file ++ p)
  else
    let n := b.Available
    let flushed := Writer.Flush ⟨b.buf ++ p.take n⟩ file
    let p := p.drop n
    if p.length ≤ defaultBufSize then (⟨p⟩, flushed.2) else (flushed.1, flushed.2 ++ p)

/-- One serializer operation applied to the writer and the file. -/
def applyOp (st : Writer × List Nat) : WriterOp → Writer × List Nat
  | .write bytes => st.1.Write st.2 bytes
  | .flush => st.1.Flush st.2

/-- The bytes an operation of the serializer hands to the writer. -/
def WriterOp.bytes : WriterOp → List Nat
  | .write bytes => bytes
  | .flush => []

/-- The bytes a sequence of operations hands to the writer, in order: the full
serialization. -/
def writtenBytes (ops : List WriterOp) : List Nat := (ops.map WriterOp.bytes).flatten

/-- Lines 141-154: create the file, wrap it in a buffered writer, let the
serializer run, return; the deferred `f.Close()` closes the handle.  `run`
itself never calls `Flush` on the writer: the bytes reach the file when the
buffer overflows or when the serializer flushes the writer. -/
def writeOutput (env : Env) (outputDoc : Document) (w : World) : Outcome × World :=
  match env.createFile with
  | some err => (.failed (.createFile err), w)
  | Option.none =>
    let w := { w with outputFile := some [], outputOpen := true }
    let writer : Writer := ⟨[]⟩
    let saved := env.save outputDoc
    let st := saved.1.foldl applyOp (writer, [])
    let w := { w with outputFile := some st.2 }
    let w := { w with outputOpen := false }
    match saved.2 with
    | some err => (.failed (.saveDocument err), w)
    | Option.none => (.success, w)

/-! ## The whole of `run` -/

/-- Lines 33-139 of `run`: everything up to the assembled output document.  The
result is the document handed to the serializer, or the way `run` ended
before. -/
def buildOutput (env : Env) (w : World) : Except Outcome Document × World :=
  if env.docFlag = "" then (.error (.fatal "Document path is required"), w)
  else
    let w := { w with stdout := w.stdout ++ ["Processing " ++ env.docFlag ++ "...\n"] }
    match env.openDocument env.docFlag with
    | .error err => (.error (.failed (.openDocument err)), w)
    | .ok inputDoc =>
      match env.parseLanguage "en" with
      | .error err => (.error (.failed (.parseLanguage err)), w)
      | .ok target =>
        let paragraphs := flattenParagraphs inputDoc
        match env.newClient with
        | .error err => (.error (.failed (.createClient err)), w)
        | .ok client =>
          let looped := translateParagraphs client target paragraphs [] w.calls
          let w := { w with calls := looped.2 }
          match looped.1 with
          | .error o => (.error o, w)
          | .ok docParagraphs =>
            let assembled := assemble docParagraphs
            let w := { w with stdout := w.stdout ++
              ["Processed " ++ toString assembled.2.1 ++ " paragraphs and " ++
                toString assembled.2.2 ++ " runs\n"] }
            (.ok assembled.1, w)

/-- The function `run`: the output document is built, then written. -/
def run (env : Env) (w : World) : Outcome × World :=
  let built := buildOutput env w
  match built.1 with
  | .error o => (o, built.2)
  | .ok outputDoc => writeOutput env outputDoc built.2

/-! ## Specification-side vocabulary -/

/-- A paragraph has at least one run with non-empty text. -/
def hasText (p : Paragraph) : Bool := p.runs.any (fun r => decide (r.text ≠ ""))

/-- The runs of a paragraph whose text is not empty, in run order. -/
def nonEmptyRuns (p : Paragraph) : List Run := p.runs.filter (fun r => decide (r.text ≠ ""))

/-- The rows of the tables of a document, in order. -/
def outputRows (d : Document) : List Row := (d.tables.map Table.rows).flatten

/-- The calls made to the translator during an execution that starts in `w`. -/
def callsMade (env : Env) (w : World) : List TranslateCall :=
  (run env w).2.calls.drop w.calls.length

/-- A call came back with translations, no more of them than texts submitted. -/
def TranslateCall.fits (c : TranslateCall) : Bool :=
  match c.reply with
  | .success translations => decide (translations.length ≤ c.texts.length)
  | .failure _ => false

/-- A call came back with an error. -/
def TranslateCall.failed (c : TranslateCall) : Bool :=
  match c.reply with
  | .success _ => false
  | .failure _ => true

/-- The translations of a reply (none for a failure). -/
def Reply.translations : Reply → List Translation
  | .success translations => translations
  | .failure _ => []

/-- The translated paragraph the loop appends for `p` when the reply fits: the
k-th translated run takes its properties from the k-th run of `p`, its original
from the k-th extracted text and its translation from the k-th translation. -/
def builtFrom (p : Paragraph) (translations : List Translation) : docParagraph :=
  { style := p.style
    properties := p.properties
    runs := List.zipWith
      (fun (rt : Run × String) (tr : Translation) =>
        ({ properties := rt.1.properties, original := rt.2, translation := tr.Text } : docRun))
      (p.runs.zip (extractTexts p)) translations }

/-- The row the assembler appends for a translated paragraph. -/
def rowOf (p : docParagraph) : Row :=
  ⟨[⟨[⟨p.style, ⟨false⟩,
        p.runs.map (fun r => ⟨r.original, ⟨r.properties.isBold || p.properties.isBold⟩⟩)⟩]⟩,
    ⟨[⟨p.style, ⟨false⟩,
        p.runs.map (fun r => ⟨r.translation, ⟨r.properties.isBold⟩⟩)⟩]⟩]⟩

/-- A string consists of white space only (the empty string included). -/
def isBlank (s : String) : Bool := s.data.all Char.isWhitespace

/-! ## Concrete inputs -/

/-- A world in which nothing has happened yet and no output file exists. -/
def emptyWorld : World := ⟨[], [], Option.none, false⟩

/-- A paragraph, not bold, with a single run, not bold, holding `s`. -/
def plain (s : String) : Paragraph := ⟨"Normal", ⟨false⟩, [⟨s, ⟨false⟩⟩]⟩

/-- A translator stub that answers every text `t` with `t` followed by `(en)`. -/
def suffixClient : Client :=
  ⟨fun _ texts _ => .success (texts.map (fun t => ⟨t ++ "(en)"⟩))⟩

/-- A translator stub that returns one translation more than it was asked for. -/
def chattyClient : Client :=
  ⟨fun _ texts _ => .success (⟨"extra"⟩ :: texts.map (fun t => ⟨t ++ "(en)"⟩))⟩

/-- A translator stub whose second call fails. -/
def secondCallFails : Client :=
  ⟨fun calls texts _ =>
    if calls.length = 1 then .failure "quota exceeded"
    else .success (texts.map (fun t => ⟨t ++ "(en)"⟩))⟩

/-- An environment in which the document opens, the language parses, the
client is constructed, the output file can be created, and the serializer
writes four bytes to the writer it is given, flushes it on closing its archive,
and returns without error. -/
def envOf (doc : Document) (client : Client) : Env :=
  { docFlag := "input.docx"
    openDocument := fun _ => .ok doc
    parseLanguage := fun s => .ok ⟨s⟩
    newClient := .ok client
    createFile := Option.none
    save := fun _ => ([.write [80, 75, 3, 4], .flush], Option.none) }

/-- An environment like `envOf` whose serializer writes two bytes, flushes the
writer on closing its archive, and returns an error. -/
def envSaveFails (doc : Document) (client : Client) : Env :=
  { envOf doc client with
    save := fun _ => ([.write [80, 75], .flush], some "cannot marshal") }

/-- An environment in which the document cannot be opened. -/
def envMissingInput : Env :=
  { envOf Document.New suffixClient with openDocument := fun _ => .error "no such file" }

/-- A document with three body paragraphs `a`, `b`, `c`. -/
def threeParagraphs : Document := ⟨[plain "a", plain "b", plain "c"], [], []⟩

/-- A paragraph, not bold, whose first run is empty and bold and whose second
run holds `hello` and is not bold. -/
def emptyThenText : Paragraph := ⟨"Normal", ⟨false⟩, [⟨"", ⟨true⟩⟩, ⟨"hello", ⟨false⟩⟩]⟩

/-- A document with one body paragraph, one empty body paragraph, and one
paragraph inside a structured document tag. -/
def nestedDoc : Document := ⟨[plain "body", plain ""], [⟨[plain "nested"]⟩], []⟩

/-! ## The loops as list functions -/

/-- The extraction loop appends the texts of the non-empty runs, in order. -/
theorem extractLoop_eq (runs : List Run) (acc : List String) :
    runs.foldl (fun texts inputRun =>
      let text := inputRun.text
      if text ≠ "" then texts ++ [text] else texts) acc
      = acc ++ (runs.filter (fun r => decide (r.text ≠ ""))).map Run.text := by
  induction runs generalizing acc with
  | nil => simp
  | cons r rs ih =>
    simp only [List.foldl_cons, ih]
    by_cases h : r.text = "" <;> simp [h, List.filter_cons]

/-- The extracted texts are the texts of the non-empty runs. -/
theorem extractTexts_eq (p : Paragraph) : extractTexts p = (nonEmptyRuns p).map Run.text := by
  unfold extractTexts nonEmptyRuns
  rw [extractLoop_eq]
  rfl

/-- Appending the elements of a list one by one appends the list. -/
theorem appendLoop_eq {α : Type} (xs acc : List α) :
    xs.foldl (fun acc p => acc ++ [p]) acc = acc ++ xs := by
  induction xs generalizing acc with
  | nil => simp
  | cons x xs ih => simp [ih]

/-- The loop over the structured document tags appends their paragraphs. -/
theorem sdtLoop_eq (sdts : List StructuredDocumentTag) (acc : List Paragraph) :
    sdts.foldl (fun acc sdt => sdt.paragraphs.foldl (fun acc p => acc ++ [p]) acc) acc
      = acc ++ (sdts.map StructuredDocumentTag.paragraphs).flatten := by
  induction sdts generalizing acc with
  | nil => simp
  | cons s ss ih =>
    rw [List.foldl_cons, ih, appendLoop_eq]
    simp

/-- The flattened sequence: body paragraphs, then the paragraphs of the blocks. -/
theorem flattenParagraphs_eq (d : Document) :
    flattenParagraphs d =
      d.paragraphs ++ (d.structuredDocumentTags.map StructuredDocumentTag.paragraphs).flatten := by
  unfold flattenParagraphs
  rw [sdtLoop_eq, appendLoop_eq]
  rfl

/-- There are no more extracted texts than runs. -/
theorem extractTexts_length_le (p : Paragraph) : (extractTexts p).length ≤ p.runs.length := by
  rw [extractTexts_eq, nonEmptyRuns, List.length_map]
  exact List.length_filter_le _ _

/-- A paragraph has extracted texts exactly when it has a non-empty run. -/
theorem extractTexts_length_eq_zero (p : Paragraph) :
    (extractTexts p).length = 0 ↔ hasText p = false := by
  rw [extractTexts_eq, nonEmptyRuns, List.length_map, List.length_eq_zero]
  simp [hasText, List.filter_eq_nil_iff]

/-- The pairing loop succeeds when the remaining translations do not outnumber
the remaining texts. -/
theorem pairLoop_ok (runs : List Run) (texts : List String) (hle : texts.length ≤ runs.length)
    (ts : List Translation) : ∀ (i : Nat) (acc : List docRun), i + ts.length ≤ texts.length →
      pairLoop runs texts i ts acc = .ok (acc ++ List.zipWith
        (fun (rt : Run × String) (tr : Translation) =>
          ({ properties := rt.1.properties, original := rt.2, translation := tr.Text } : docRun))
        ((runs.zip texts).drop i) ts) := by
  induction ts with
  | nil => intro i acc _; simp [pairLoop]
  | cons t ts ih =>
    intro i acc h
    simp only [List.length_cons] at h
    have hi : i < texts.length := by omega
    have hr : i < runs.length := by omega
    have hz : i < (runs.zip texts).length := by simp [List.length_zip]; omega
    rw [pairLoop, List.getElem?_eq_getElem hr, List.getElem?_eq_getElem hi]
    simp only
    rw [ih (i + 1) _ (by omega), List.drop_eq_getElem_cons hz]
    simp [List.getElem_zip]

/-- The pairing loop panics at index `texts.length` when the remaining
translations outnumber the remaining texts. -/
theorem pairLoop_panic (runs : List Run) (texts : List String) (hle : texts.length ≤ runs.length)
    (ts : List Translation) : ∀ (i : Nat) (acc : List docRun), i ≤ texts.length →
      texts.length < i + ts.length →
      ∃ len, pairLoop runs texts i ts acc = .error (.panicked texts.length len) := by
  induction ts with
  | nil => intro i acc h1 h2; simp at h2; omega
  | cons t ts ih =>
    intro i acc h1 h2
    simp only [List.length_cons] at h2
    by_cases hi : i < texts.length
    · have hr : i < runs.length := by omega
      rw [pairLoop, List.getElem?_eq_getElem hr, List.getElem?_eq_getElem hi]
      exact ih (i + 1) _ (by omega) (by omega)
    · have hi2 : i = texts.length := by omega
      subst hi2
      rw [pairLoop]
      by_cases hr : texts.length < runs.length
      · rw [List.getElem?_eq_getElem hr, List.getElem?_eq_none (Nat.le_refl _)]
        exact ⟨_, rfl⟩
      · rw [List.getElem?_eq_none (by omega)]
        have : runs.length = texts.length := by omega
        exact ⟨_, rfl⟩

/-- The pairing loop of a paragraph, for a reply that fits. -/
theorem pairRuns_ok (p : Paragraph) (ts : List Translation)
    (h : ts.length ≤ (extractTexts p).length) :
    pairRuns p (extractTexts p) ts = .ok (builtFrom p ts).runs := by
  unfold pairRuns
  rw [pairLoop_ok p.runs (extractTexts p) (extractTexts_length_le p) ts 0 [] (by omega)]
  simp [builtFrom]

/-- The pairing loop of a paragraph, for a reply that is too long. -/
theorem pairRuns_panic (p : Paragraph) (ts : List Translation)
    (h : (extractTexts p).length < ts.length) :
    ∃ len, pairRuns p (extractTexts p) ts = .error (.panicked (extractTexts p).length len) := by
  unfold pairRuns
  exact pairLoop_panic p.runs (extractTexts p) (extractTexts_length_le p) ts 0 []
    (Nat.zero_le _) (by omega)

/-- The paragraph loop, described by the calls it adds to the record: the
batches are a leading part of the batches of the paragraphs with text; either
all calls fit and the loop ends with one translated paragraph per call, or the
last call is the first that does not fit and the loop ends there, with an error
return (the call failed) or a panic (the reply was too long). -/
theorem translateParagraphs_spec (client : Client) (target : Tag) (ps : List Paragraph) :
    ∀ (acc : List docParagraph) (calls : List TranslateCall),
    ∃ new, (translateParagraphs client target ps acc calls).2 = calls ++ new ∧
      new.map TranslateCall.texts = ((ps.filter hasText).map extractTexts).take new.length ∧
      (∀ c ∈ new, c.target = target) ∧
      ((new.length = (ps.filter hasText).length ∧ (∀ c ∈ new, c.fits = true) ∧
          (translateParagraphs client target ps acc calls).1 =
            .ok (acc ++ List.zipWith (fun p c => builtFrom p c.reply.translations)
              (ps.filter hasText) new)) ∨
        (∃ pre c, new = pre ++ [c] ∧ (∀ x ∈ pre, x.fits = true) ∧
          ((∃ e, c.reply = .failure e ∧
              (translateParagraphs client target ps acc calls).1 = .error (.failed (.translate e))) ∨
            (∃ ts len, c.reply = .success ts ∧ c.texts.length < ts.length ∧
              (translateParagraphs client target ps acc calls).1 =
                .error (.panicked c.texts.length len))))) := by
  induction ps with
  | nil =>
    intro acc calls
    exact ⟨[], by simp [translateParagraphs]⟩
  | cons p rest ih =>
    intro acc calls
    by_cases h0 : (extractTexts p).length = 0
    · have hf : hasText p = false := (extractTexts_length_eq_zero p).1 h0
      obtain ⟨new, h1, h2, h3, h4⟩ := ih acc calls
      refine ⟨new, ?_⟩
      rw [translateParagraphs]
      simp only [h0, if_true, List.filter_cons, hf]
      exact ⟨h1, h2, h3, h4⟩
    · have hf : hasText p = true := by
        cases h : hasText p
        · exact absurd ((extractTexts_length_eq_zero p).2 h) h0
        · rfl
      rw [translateParagraphs]
      simp only [h0, if_false, List.filter_cons, hf, if_true]
      cases hrep : client.Translate calls (extractTexts p) target with
      | failure e =>
        refine ⟨[⟨extractTexts p, target, .failure e⟩], rfl, ?_, ?_, Or.inr ?_⟩
        · simp
        · simp
        · exact ⟨[], _, rfl, by simp, Or.inl ⟨e, rfl, rfl⟩⟩
      | success ts =>
        by_cases hfit : ts.length ≤ (extractTexts p).length
        · simp only [pairRuns_ok p ts hfit]
          obtain ⟨new, h1, h2, h3, h4⟩ := ih
            (acc ++ [{ style := p.style, properties := p.properties, runs := (builtFrom p ts).runs }])
            (calls ++ [⟨extractTexts p, target, .success ts⟩])
          refine ⟨⟨extractTexts p, target, .success ts⟩ :: new, ?_, ?_, ?_, ?_⟩
          · rw [h1]; simp
          · simp [h2]
          · intro c hc
            rcases List.mem_cons.1 hc with rfl | hc
            · rfl
            · exact h3 c hc
          · have hc0 : (⟨extractTexts p, target, .success ts⟩ : TranslateCall).fits = true := by
              simp [TranslateCall.fits, hfit]
            rcases h4 with ⟨hl, hall, hok⟩ | ⟨pre, c, hnew, hpre, hend⟩
            · refine Or.inl ⟨by simp [hl], ?_, ?_⟩
              · intro c hc
                rcases List.mem_cons.1 hc with rfl | hc
                · exact hc0
                · exact hall c hc
              · rw [hok]
                simp [Reply.translations, builtFrom]
            · refine Or.inr ⟨⟨extractTexts p, target, .success ts⟩ :: pre, c, by simp [hnew], ?_, hend⟩
              intro x hx
              rcases List.mem_cons.1 hx with rfl | hx
              · exact hc0
              · exact hpre x hx
        · obtain ⟨len, hp⟩ := pairRuns_panic p ts (by omega)
          simp only [hp]
          refine ⟨[⟨extractTexts p, target, .success ts⟩], rfl, ?_, ?_, Or.inr ?_⟩
          · simp
          · simp
          · exact ⟨[], _, rfl, by simp, Or.inr ⟨ts, len, rfl, by simp; omega, rfl⟩⟩

/-! ## The assembler as a list function -/

/-- The inner loop of the assembler appends one run per translated run to each
of the two paragraphs. -/
theorem addRunPair_foldl (p : docParagraph) (runs : List docRun) :
    ∀ (ip op : Paragraph) (n : Nat),
      runs.foldl (addRunPair p) (ip, op, n) =
        ({ ip with runs := ip.runs ++
            runs.map (fun r => ⟨r.original, ⟨r.properties.isBold || p.properties.isBold⟩⟩) },
         { op with runs := op.runs ++
            runs.map (fun r => ⟨r.translation, ⟨r.properties.isBold⟩⟩) },
         n + runs.length) := by
  induction runs with
  | nil => intro ip op n; simp
  | cons r rs ih =>
    intro ip op n
    rw [List.foldl_cons, addRunPair, ih]
    simp [Run.AddText, Run.SetBold, Run.empty, Nat.add_assoc, Nat.add_comm 1]

/-- One pass of the outer loop appends the row of the translated paragraph. -/
theorem addRow_eq (t : Table) (pc rc : Nat) (p : docParagraph) :
    addRow (t, pc, rc) p = ({ t with rows := t.rows ++ [rowOf p] }, pc + 1, rc + p.runs.length) := by
  simp [addRow, addRunPair_foldl, rowOf, Paragraph.SetStyle, Paragraph.empty]

/-- The outer loop of the assembler appends one row per translated paragraph. -/
theorem addRow_foldl (dps : List docParagraph) :
    ∀ (t : Table) (pc rc : Nat),
      (dps.foldl addRow (t, pc, rc)).1 = { t with rows := t.rows ++ dps.map rowOf } ∧
      (dps.foldl addRow (t, pc, rc)).2.1 = pc + dps.length := by
  induction dps with
  | nil => intro t pc rc; simp
  | cons p ps ih =>
    intro t pc rc
    rw [List.foldl_cons, addRow_eq]
    obtain ⟨h1, h2⟩ := ih { t with rows := t.rows ++ [rowOf p] } (pc + 1) (rc + p.runs.length)
    rw [h1, h2]
    simp [Nat.add_assoc, Nat.add_comm 1]

/-- The assembled document: one table, full width, no borders, one row per
translated paragraph. -/
theorem assemble_eq (dps : List docParagraph) :
    (assemble dps).1 = ⟨[], [], [⟨⟨some 100, some (.none, 0)⟩, dps.map rowOf⟩]⟩ := by
  unfold assemble
  simp only [(addRow_foldl dps _ 0 0).1]
  simp [Document.New, Table.empty]

/-! ## The whole run, described by the calls it makes -/

/-- Writing the output leaves the record of calls alone. -/
theorem writeOutput_calls (env : Env) (d : Document) (w : World) :
    (writeOutput env d w).2.calls = w.calls := by
  unfold writeOutput
  cases env.createFile <;> simp only
  cases (env.save d).2 <;> rfl

/-- The calls recorded by `run` are those recorded while building the output. -/
theorem run_calls (env : Env) (w : World) :
    (run env w).2.calls = (buildOutput env w).2.calls := by
  unfold run
  cases h : (buildOutput env w).1 with
  | error o => simp only [h]
  | ok d => simp only [h, writeOutput_calls]

/-- When `run` ends before the output is written, it ends the way building the
output ended and leaves the world as building left it. -/
theorem run_of_error (env : Env) (w : World) (o : Outcome)
    (h : (buildOutput env w).1 = .error o) : run env w = (o, (buildOutput env w).2) := by
  unfold run
  simp only [h]

/-- Building the output never touches the output file. -/
theorem buildOutput_file (env : Env) (w : World) :
    (buildOutput env w).2.outputFile = w.outputFile ∧
    (buildOutput env w).2.outputOpen = w.outputOpen := by
  unfold buildOutput
  split
  · exact ⟨rfl, rfl⟩
  · cases env.openDocument env.docFlag with
    | error e => exact ⟨rfl, rfl⟩
    | ok doc =>
      cases env.parseLanguage "en" with
      | error e => exact ⟨rfl, rfl⟩
      | ok target =>
        cases env.newClient with
        | error e => exact ⟨rfl, rfl⟩
        | ok client =>
          simp only
          cases (translateParagraphs client target (flattenParagraphs doc) [] w.calls).1 <;>
            exact ⟨rfl, rfl⟩

/-- Once the document is open, the language parsed and the client constructed,
building the output is the paragraph loop followed by the assembler. -/
theorem buildOutput_eq (env : Env) (w : World) (doc : Document) (target : Tag) (client : Client)
    (hflag : env.docFlag ≠ "") (hopen : env.openDocument env.docFlag = .ok doc)
    (hparse : env.parseLanguage "en" = .ok target) (hclient : env.newClient = .ok client) :
    (buildOutput env w).2.calls =
        (translateParagraphs client target (flattenParagraphs doc) [] w.calls).2 ∧
    (buildOutput env w).1 =
      match (translateParagraphs client target (flattenParagraphs doc) [] w.calls).1 with
      | .error o => .error o
      | .ok dps => .ok (assemble dps).1 := by
  unfold buildOutput
  simp only [hflag, if_false, hopen, hparse, hclient]
  cases (translateParagraphs client target (flattenParagraphs doc) [] w.calls).1 <;>
    exact ⟨rfl, rfl⟩

/-- The whole run, described by the calls it makes (see
`translateParagraphs_spec`). -/
theorem buildOutput_spec (env : Env) (w : World) (doc : Document) (target : Tag)
    (client : Client)
    (hflag : env.docFlag ≠ "") (hopen : env.openDocument env.docFlag = .ok doc)
    (hparse : env.parseLanguage "en" = .ok target) (hclient : env.newClient = .ok client) :
    (callsMade env w).map TranslateCall.texts =
      (((flattenParagraphs doc).filter hasText).map extractTexts).take (callsMade env w).length ∧
    (∀ c ∈ callsMade env w, c.target = target) ∧
    (((callsMade env w).length = ((flattenParagraphs doc).filter hasText).length ∧
        (∀ c ∈ callsMade env w, c.fits = true) ∧
        (buildOutput env w).1 =
          .ok (assemble (List.zipWith (fun p c => builtFrom p c.reply.translations)
            ((flattenParagraphs doc).filter hasText) (callsMade env w))).1) ∨
      (∃ pre c, callsMade env w = pre ++ [c] ∧ (∀ x ∈ pre, x.fits = true) ∧
        ((∃ e, c.reply = .failure e ∧
            (buildOutput env w).1 = .error (.failed (.translate e))) ∨
          (∃ ts len, c.reply = .success ts ∧ c.texts.length < ts.length ∧
            (buildOutput env w).1 = .error (.panicked c.texts.length len))))) := by
  obtain ⟨hcalls, hres⟩ := buildOutput_eq env w doc target client hflag hopen hparse hclient
  obtain ⟨new, h1, h2, h3, h4⟩ :=
    translateParagraphs_spec client target (flattenParagraphs doc) [] w.calls
  have hmade : callsMade env w = new := by
    unfold callsMade
    rw [run_calls, hcalls, h1]
    simp
  rw [hmade, hres]
  refine ⟨h2, h3, ?_⟩
  rcases h4 with ⟨hl, hall, hok⟩ | ⟨pre, c, hnew, hpre, hend⟩
  · refine Or.inl ⟨hl, hall, ?_⟩
    rw [hok]
    simp
  · refine Or.inr ⟨pre, c, hnew, hpre, ?_⟩
    rcases hend with ⟨e, he, hr⟩ | ⟨ts, len, hts, hlt, hr⟩
    · exact Or.inl ⟨e, he, by rw [hr]⟩
    · exact Or.inr ⟨ts, len, hts, hlt, by rw [hr]⟩

/-- When the document cannot be opened, nothing is built and no call is made. -/
theorem buildOutput_open_error (env : Env) (w : World) (e : String)
    (hflag : env.docFlag ≠ "") (hopen : env.openDocument env.docFlag = .error e) :
    (buildOutput env w).1 = .error (.failed (.openDocument e)) ∧
    (buildOutput env w).2.calls = w.calls := by
  unfold buildOutput
  simp only [hflag, if_false, hopen]
  exact ⟨trivial, trivial⟩

/-- Whenever building the output ends `run`, the outcome is that ending and the
output file is as it was. -/
theorem run_error_file (env : Env) (w : World) (o : Outcome)
    (h : (buildOutput env w).1 = .error o) :
    (run env w).1 = o ∧ (run env w).2.outputFile = w.outputFile ∧
    (run env w).2.outputOpen = w.outputOpen := by
  rw [run_of_error env w o h]
  exact ⟨rfl, (buildOutput_file env w).1, (buildOutput_file env w).2⟩

/-- A paragraph whose runs are all empty has no extracted texts. -/
theorem extractTexts_of_all_empty (p : Paragraph) (h : ∀ r ∈ p.runs, r.text = "") :
    extractTexts p = [] := by
  rw [extractTexts_eq, nonEmptyRuns, List.map_eq_nil_iff, List.filter_eq_nil_iff]
  intro r hr
  simp [h r hr]

/-- A paragraph with text has extracted texts. -/
theorem extractTexts_ne_nil (p : Paragraph) (h : hasText p = true) : extractTexts p ≠ [] := by
  intro hnil
  have h0 : (extractTexts p).length = 0 := by rw [hnil]; rfl
  rw [(extractTexts_length_eq_zero p).1 h0] at h
  cases h

/-! ## The buffered writer -/

/-- A write loses nothing: afterwards the file followed by the buffer is the
file followed by the buffer as they were, followed by the bytes written. -/
theorem Writer.Write_conserves (b : Writer) (file p : List Nat) :
    (b.Write file p).2 ++ (b.Write file p).1.buf = file ++ b.buf ++ p := by
  unfold Writer.Write
  split
  · simp
  · split
    · rename_i h
      simp [List.length_eq_zero.1 h]
    · simp only [Writer.Flush]
      split <;> simp

/-- No operation of the serializer loses bytes. -/
theorem applyOp_conserves (st : Writer × List Nat) (op : WriterOp) :
    (applyOp st op).2 ++ (applyOp st op).1.buf = st.2 ++ st.1.buf ++ op.bytes := by
  cases op with
  | write bytes => exact Writer.Write_conserves st.1 st.2 bytes
  | flush => simp [applyOp, Writer.Flush, WriterOp.bytes]

/-- After any sequence of operations the file followed by the buffer holds
every byte written, in order. -/
theorem serializer_conserves (ops : List WriterOp) :
    ∀ st : Writer × List Nat,
      (ops.foldl applyOp st).2 ++ (ops.foldl applyOp st).1.buf =
        st.2 ++ st.1.buf ++ (ops.map WriterOp.bytes).flatten := by
  induction ops with
  | nil => intro st; simp
  | cons op ops ih =>
    intro st
    rw [List.foldl_cons, ih, applyOp_conserves]
    simp

/-- A write smaller than the buffer stays in the buffer: nothing reaches the
file before a flush. -/
theorem small_write_stays_buffered :
    ([WriterOp.write [80, 75, 3, 4]].foldl applyOp (⟨[]⟩, [])).2 = [] ∧
    ([WriterOp.write [80, 75, 3, 4]].foldl applyOp (⟨[]⟩, [])).1.buf = [80, 75, 3, 4] := by
  decide

/-- A serializer that ends with a flush leaves every byte it wrote in the file. -/
theorem flushed_serializer_complete (ops : List WriterOp) :
    ((ops ++ [WriterOp.flush]).foldl applyOp (⟨[]⟩, [])).2 =
      (ops.map WriterOp.bytes).flatten := by
  rw [List.foldl_append]
  simp only [List.foldl_cons, List.foldl_nil, applyOp, Writer.Flush]
  rw [serializer_conserves]
  simp

/-! ## The claims -/

/-- C1, as stated, fails: a document with one paragraph `a` and a translator
that succeeds but returns two translations for the one text.  Every translate
call succeeds and one paragraph has text, yet the pairing loop panics and there
is no output table at all, with one row or otherwise. -/
theorem row_count_any_reply_counterexample :
    (∀ c ∈ callsMade (envOf ⟨[plain "a"], [], []⟩ chattyClient) emptyWorld, c.failed = false) ∧
    ((flattenParagraphs ⟨[plain "a"], [], []⟩).filter hasText).length = 1 ∧
    (run (envOf ⟨[plain "a"], [], []⟩ chattyClient) emptyWorld).1 = .panicked 1 1 ∧
    (buildOutput (envOf ⟨[plain "a"], [], []⟩ chattyClient) emptyWorld).1 =
      .error (.panicked 1 1) :=
  ⟨by decide, by decide, by decide, rfl⟩

/-- C1, amended: when the document opens and the client is constructed, and
every translate call succeeds with no more translations than texts submitted
(fewer are fine), the output document has one table whose number of rows is M,
the number of flattened paragraphs with at least one non-empty run, and M is at
most N, the number of flattened paragraphs; a paragraph whose runs are all
empty is not counted in M. -/
theorem run_row_count (env : Env) (w : World) (doc : Document) (target : Tag) (client : Client)
    (hflag : env.docFlag ≠ "") (hopen : env.openDocument env.docFlag = .ok doc)
    (hparse : env.parseLanguage "en" = .ok target) (hclient : env.newClient = .ok client)
    (hfit : ∀ c ∈ callsMade env w, c.fits = true) :
    ∃ d, (buildOutput env w).1 = .ok d ∧ d.tables.length = 1 ∧
      (outputRows d).length = ((flattenParagraphs doc).filter hasText).length ∧
      ((flattenParagraphs doc).filter hasText).length ≤ (flattenParagraphs doc).length ∧
      ∀ p, (∀ r ∈ p.runs, r.text = "") → hasText p = false := by
  obtain ⟨-, -, hcase⟩ := buildOutput_spec env w doc target client hflag hopen hparse hclient
  rcases hcase with ⟨hl, -, hok⟩ | ⟨pre, c, hnew, -, hend⟩
  · refine ⟨_, hok, ?_, ?_, List.length_filter_le _ _, ?_⟩
    · rw [assemble_eq]; rfl
    · rw [assemble_eq]
      simp [outputRows, hl]
    · intro p hp
      simp only [hasText, List.any_eq_false]
      intro r hr
      simp [hp r hr]
  · exfalso
    have hc : c.fits = true := hfit c (by rw [hnew]; simp)
    rcases hend with ⟨e, he, -⟩ | ⟨ts, len, hts, hlt, -⟩
    · simp [TranslateCall.fits, he] at hc
    · simp [TranslateCall.fits, hts] at hc
      omega

/-- C1, witness: a document with two body paragraphs (one of them empty) and
one nested paragraph, translated by a stub that answers text by text. -/
theorem run_row_count_witness :
    ∃ d, (buildOutput (envOf nestedDoc suffixClient) emptyWorld).1 = .ok d ∧
      d.tables.length = 1 ∧
      (outputRows d).length = ((flattenParagraphs nestedDoc).filter hasText).length ∧
      ((flattenParagraphs nestedDoc).filter hasText).length ≤
        (flattenParagraphs nestedDoc).length ∧
      ∀ p, (∀ r ∈ p.runs, r.text = "") → hasText p = false :=
  run_row_count (envOf nestedDoc suffixClient) emptyWorld nestedDoc ⟨"en"⟩ suffixClient
    (by decide) rfl rfl rfl (by decide)

/-- C2: for a paragraph that is processed (it has extracted texts) and a
translator reply with exactly one translation per submitted text, the loop
appends one translated paragraph and goes on; its list of translated runs is as
long as the list of non-empty runs of the paragraph, and the i-th entry holds
the text of the i-th non-empty run as original and the i-th returned
translation as translation. -/
theorem processed_paragraph_runs (client : Client) (target : Tag) (p : Paragraph)
    (rest : List Paragraph) (acc : List docParagraph) (calls : List TranslateCall)
    (ts : List Translation)
    (hproc : extractTexts p ≠ [])
    (hreply : client.Translate calls (extractTexts p) target = .success ts)
    (hlen : ts.length = (extractTexts p).length) :
    ∃ runs,
      translateParagraphs client target (p :: rest) acc calls =
        translateParagraphs client target rest
          (acc ++ [{ style := p.style, properties := p.properties, runs := runs }])
          (calls ++ [{ texts := extractTexts p, target := target, reply := .success ts }]) ∧
      runs.length = (nonEmptyRuns p).length ∧
      ∀ i, i < runs.length →
        runs[i]?.map docRun.original = (nonEmptyRuns p)[i]?.map Run.text ∧
        runs[i]?.map docRun.translation = ts[i]?.map Translation.Text := by
  have hle := extractTexts_length_le p
  have hlen2 : (extractTexts p).length = (nonEmptyRuns p).length := by
    rw [extractTexts_eq, List.length_map]
  have hruns : (builtFrom p ts).runs.length = (nonEmptyRuns p).length := by
    simp [builtFrom, List.length_zipWith, List.length_zip]
    omega
  refine ⟨(builtFrom p ts).runs, ?_, hruns, ?_⟩
  · have h0 : ¬ (extractTexts p).length = 0 := by
      intro h; exact hproc (List.length_eq_zero.1 h)
    rw [translateParagraphs]
    simp only [h0, if_false, hreply, pairRuns_ok p ts (by omega)]
  · intro i hi
    rw [hruns] at hi
    have hi1 : i < (extractTexts p).length := by omega
    have hi2 : i < ts.length := by omega
    have hi3 : i < p.runs.length := by omega
    constructor
    · simp only [builtFrom, List.getElem?_zipWith, List.getElem?_zip_eq_some]
      rw [List.getElem?_eq_getElem hi2, ← List.getElem?_map, ← extractTexts_eq]
      rw [List.getElem?_eq_getElem hi1]
      rw [show (p.runs.zip (extractTexts p))[i]? = some (p.runs[i], (extractTexts p)[i]) from by
        rw [List.getElem?_zip_eq_some]
        exact ⟨List.getElem?_eq_getElem hi3, List.getElem?_eq_getElem hi1⟩]
      rfl
    · simp only [builtFrom, List.getElem?_zipWith]
      rw [List.getElem?_eq_getElem hi2]
      rw [show (p.runs.zip (extractTexts p))[i]? = some (p.runs[i], (extractTexts p)[i]) from by
        rw [List.getElem?_zip_eq_some]
        exact ⟨List.getElem?_eq_getElem hi3, List.getElem?_eq_getElem hi1⟩]
      rfl

/-- C2, witness: the paragraph with an empty run before `hello`, first in a
document, translated by a stub that answers text by text. -/
theorem processed_paragraph_runs_witness :
    ∃ runs,
      translateParagraphs suffixClient ⟨"en"⟩ (emptyThenText :: [plain "b"]) [] [] =
        translateParagraphs suffixClient ⟨"en"⟩ [plain "b"]
          ([] ++ [{ style := emptyThenText.style, properties := emptyThenText.properties,
                    runs := runs }])
          ([] ++ [{ texts := extractTexts emptyThenText, target := ⟨"en"⟩,
                    reply := .success [⟨"hello(en)"⟩] }]) ∧
      runs.length = (nonEmptyRuns emptyThenText).length ∧
      ∀ i, i < runs.length →
        runs[i]?.map docRun.original = (nonEmptyRuns emptyThenText)[i]?.map Run.text ∧
        runs[i]?.map docRun.translation =
          ([⟨"hello(en)"⟩] : List Translation)[i]?.map Translation.Text :=
  processed_paragraph_runs suffixClient ⟨"en"⟩ emptyThenText [plain "b"] [] []
    [⟨"hello(en)"⟩] (by decide) rfl (by decide)

/-- C3, the code at the failing input: a paragraph, not bold, whose first run
is empty and bold and whose second run `hello` is not bold.  The only extracted
text is `hello`, taken from the second run, yet the translated run takes its
properties from the run at index `0`, the empty one: both cells show bold
text, where the run the text comes from is not bold and neither is the
paragraph. -/
theorem bold_taken_from_run_at_text_index :
    nonEmptyRuns emptyThenText = [⟨"hello", ⟨false⟩⟩] ∧
    emptyThenText.properties.isBold = false ∧
    (buildOutput (envOf ⟨[emptyThenText], [], []⟩ suffixClient) emptyWorld).1 =
      .ok ⟨[], [], [⟨⟨some 100, some (.none, 0)⟩,
        [⟨[⟨[⟨"Normal", ⟨false⟩, [⟨"hello", ⟨true⟩⟩]⟩]⟩,
           ⟨[⟨"Normal", ⟨false⟩, [⟨"hello(en)", ⟨true⟩⟩]⟩]⟩]⟩]⟩]⟩ :=
  ⟨by decide, by decide, rfl⟩

/-- C4: for every list of translated paragraphs the assembler produces exactly
one table with one row per translated paragraph, in order; every row has
exactly two cells, each with one paragraph that carries the style of the
translated paragraph; the left paragraph has one run per translated run, in
order, with the original text and bold = run bold or paragraph bold; the right
paragraph has one run per translated run, in order, with the translated text
and bold = run bold only. -/
theorem assemble_rows (dps : List docParagraph) :
    ∃ t, (assemble dps).1.tables = [t] ∧ t.rows.length = dps.length ∧
      ∀ (k : Nat) (p : docParagraph), dps[k]? = some p →
        ∃ (left right : Paragraph), t.rows[k]? = some ⟨[⟨[left]⟩, ⟨[right]⟩]⟩ ∧
          left.style = p.style ∧ right.style = p.style ∧
          left.runs = p.runs.map
            (fun r => ⟨r.original, ⟨r.properties.isBold || p.properties.isBold⟩⟩) ∧
          right.runs = p.runs.map (fun r => ⟨r.translation, ⟨r.properties.isBold⟩⟩) := by
  refine ⟨⟨⟨some 100, some (.none, 0)⟩, dps.map rowOf⟩, ?_, ?_, ?_⟩
  · rw [assemble_eq]
  · simp
  · intro k p hk
    refine ⟨⟨p.style, ⟨false⟩, p.runs.map
        (fun r => ⟨r.original, ⟨r.properties.isBold || p.properties.isBold⟩⟩)⟩,
      ⟨p.style, ⟨false⟩, p.runs.map (fun r => ⟨r.translation, ⟨r.properties.isBold⟩⟩)⟩,
      ?_, rfl, rfl, rfl, rfl⟩
    simp only [List.getElem?_map, hk, Option.map_some']
    rfl

/-- C5: the flattened sequence is the body paragraphs followed by the
paragraphs of the structured document tags in tag order; and when the output
document is built, it has one row per flattened paragraph with text, the k-th
row being the row of the k-th such paragraph: built from its style, its
properties, its runs and the reply to the k-th translate call, whose batch is
the texts of that paragraph. -/
theorem rows_follow_flattened_order (env : Env) (w : World) (doc : Document) (target : Tag)
    (client : Client) (d : Document)
    (hflag : env.docFlag ≠ "") (hopen : env.openDocument env.docFlag = .ok doc)
    (hparse : env.parseLanguage "en" = .ok target) (hclient : env.newClient = .ok client)
    (hbuilt : (buildOutput env w).1 = .ok d) :
    flattenParagraphs doc =
      doc.paragraphs ++
        (doc.structuredDocumentTags.map StructuredDocumentTag.paragraphs).flatten ∧
    (outputRows d).length = ((flattenParagraphs doc).filter hasText).length ∧
    ∀ (k : Nat) (p : Paragraph), ((flattenParagraphs doc).filter hasText)[k]? = some p →
      ∃ c : TranslateCall, (callsMade env w)[k]? = some c ∧ c.texts = extractTexts p ∧
        (outputRows d)[k]? = some (rowOf (builtFrom p c.reply.translations)) := by
  obtain ⟨htexts, -, hcase⟩ :=
    buildOutput_spec env w doc target client hflag hopen hparse hclient
  refine ⟨flattenParagraphs_eq doc, ?_⟩
  rcases hcase with ⟨hl, -, hok⟩ | ⟨pre, c, -, -, hend⟩
  · rw [hbuilt] at hok
    have hd : d = (assemble (List.zipWith (fun p c => builtFrom p c.reply.translations)
        ((flattenParagraphs doc).filter hasText) (callsMade env w))).1 := by
      injection hok
    have hrows : outputRows d = List.map rowOf
        (List.zipWith (fun p c => builtFrom p c.reply.translations)
          ((flattenParagraphs doc).filter hasText) (callsMade env w)) := by
      rw [hd, assemble_eq]
      simp [outputRows]
    refine ⟨by rw [hrows]; simp [hl], ?_⟩
    intro k p hk
    have hklt : k < ((flattenParagraphs doc).filter hasText).length := by
      rcases Nat.lt_or_ge k ((flattenParagraphs doc).filter hasText).length with h | h
      · exact h
      · rw [List.getElem?_eq_none h] at hk
        cases hk
    have hkc : k < (callsMade env w).length := by omega
    refine ⟨(callsMade env w)[k], List.getElem?_eq_getElem hkc, ?_, ?_⟩
    · have h1 : ((callsMade env w).map TranslateCall.texts)[k]? =
          some ((callsMade env w)[k]).texts := by
        rw [List.getElem?_map, List.getElem?_eq_getElem hkc]
        rfl
      rw [htexts, hl, List.take_of_length_le (by simp), List.getElem?_map, hk] at h1
      simp only [Option.map_some', Option.some.injEq] at h1
      exact h1.symm
    · rw [hrows, List.getElem?_map, List.getElem?_zipWith, hk, List.getElem?_eq_getElem hkc]
      rfl
  · rcases hend with ⟨e, -, hr⟩ | ⟨ts, len, -, -, hr⟩ <;>
    · rw [hbuilt] at hr
      cases hr

/-- C5, witness: a document with a body paragraph, an empty body paragraph and
a nested paragraph; the nested paragraph gives the second and last row. -/
theorem rows_follow_flattened_order_witness :
    (flattenParagraphs nestedDoc =
      nestedDoc.paragraphs ++
        (nestedDoc.structuredDocumentTags.map StructuredDocumentTag.paragraphs).flatten ∧
    (outputRows (assemble [builtFrom (plain "body") [⟨"body(en)"⟩],
        builtFrom (plain "nested") [⟨"nested(en)"⟩]]).1).length =
      ((flattenParagraphs nestedDoc).filter hasText).length ∧
    ∀ (k : Nat) (p : Paragraph), ((flattenParagraphs nestedDoc).filter hasText)[k]? = some p →
      ∃ c : TranslateCall, (callsMade (envOf nestedDoc suffixClient) emptyWorld)[k]? = some c ∧
        c.texts = extractTexts p ∧
        (outputRows (assemble [builtFrom (plain "body") [⟨"body(en)"⟩],
          builtFrom (plain "nested") [⟨"nested(en)"⟩]]).1)[k]? =
            some (rowOf (builtFrom p c.reply.translations))) ∧
    ((flattenParagraphs nestedDoc).filter hasText)[1]? = some (plain "nested") :=
  ⟨rows_follow_flattened_order (envOf nestedDoc suffixClient) emptyWorld nestedDoc ⟨"en"⟩
    suffixClient _ (by decide) rfl rfl rfl rfl, by decide⟩

/-- C6: once the flag is given, if opening the document fails, or constructing
the translation client fails, or a translate call made during the run fails,
then `run` returns an error and the output file is exactly as it was before
(not created, not modified, no handle left open); and when opening the
document fails, no call is made to the translator. -/
theorem no_output_on_failure (env : Env) (w : World) (hflag : env.docFlag ≠ "")
    (hfail : (∃ e, env.openDocument env.docFlag = .error e) ∨
      (∃ e, env.newClient = .error e) ∨ (∃ c ∈ callsMade env w, c.failed = true)) :
    (∃ e, (run env w).1 = .failed e) ∧
    (run env w).2.outputFile = w.outputFile ∧
    (run env w).2.outputOpen = w.outputOpen ∧
    ((∃ e, env.openDocument env.docFlag = .error e) → (run env w).2.calls = w.calls) := by
  have key : ∃ e, (buildOutput env w).1 = .error (.failed e) := by
    cases hopen : env.openDocument env.docFlag with
    | error e => exact ⟨_, (buildOutput_open_error env w e hflag hopen).1⟩
    | ok doc =>
      cases hparse : env.parseLanguage "en" with
      | error e =>
        refine ⟨.parseLanguage e, ?_⟩
        unfold buildOutput
        simp only [hflag, if_false, hopen, hparse]
      | ok target =>
        cases hclient : env.newClient with
        | error e =>
          refine ⟨.createClient e, ?_⟩
          unfold buildOutput
          simp only [hflag, if_false, hopen, hparse, hclient]
        | ok client =>
          rcases hfail with ⟨e, he⟩ | ⟨e, he⟩ | ⟨c, hc, hfailed⟩
          · rw [hopen] at he; cases he
          · rw [hclient] at he; cases he
          · have hnot : c.fits = false := by
              unfold TranslateCall.failed at hfailed
              unfold TranslateCall.fits
              cases hr : c.reply with
              | failure e => rfl
              | success ts => rw [hr] at hfailed; cases hfailed
            obtain ⟨-, -, hcase⟩ :=
              buildOutput_spec env w doc target client hflag hopen hparse hclient
            rcases hcase with ⟨-, hall, -⟩ | ⟨pre, last, hnew, hpre, hend⟩
            · rw [hall c hc] at hnot; cases hnot
            · rw [hnew] at hc
              rcases List.mem_append.1 hc with hc | hc
              · rw [hpre c hc] at hnot; cases hnot
              · have hcc : c = last := by simpa using hc
                subst hcc
                rcases hend with ⟨e, -, hr⟩ | ⟨ts, len, hts, -, -⟩
                · exact ⟨_, hr⟩
                · unfold TranslateCall.failed at hfailed
                  rw [hts] at hfailed
                  cases hfailed
  obtain ⟨e, he⟩ := key
  obtain ⟨h1, h2, h3⟩ := run_error_file env w _ he
  refine ⟨⟨e, h1⟩, h2, h3, ?_⟩
  rintro ⟨msg, hmsg⟩
  rw [run_calls]
  exact (buildOutput_open_error env w msg hflag hmsg).2

/-- C6, witness: a document with three paragraphs and a translator whose second
call fails; and an input path at which no document can be opened. -/
theorem no_output_on_failure_witness :
    ((∃ e, (run (envOf threeParagraphs secondCallFails) emptyWorld).1 = .failed e) ∧
      (run (envOf threeParagraphs secondCallFails) emptyWorld).2.outputFile =
        emptyWorld.outputFile ∧
      (run (envOf threeParagraphs secondCallFails) emptyWorld).2.outputOpen =
        emptyWorld.outputOpen ∧
      ((∃ e, (envOf threeParagraphs secondCallFails).openDocument
          (envOf threeParagraphs secondCallFails).docFlag = .error e) →
        (run (envOf threeParagraphs secondCallFails) emptyWorld).2.calls = emptyWorld.calls)) ∧
    ((∃ e, (run envMissingInput emptyWorld).1 = .failed e) ∧
      (run envMissingInput emptyWorld).2.outputFile = emptyWorld.outputFile ∧
      (run envMissingInput emptyWorld).2.outputOpen = emptyWorld.outputOpen ∧
      ((∃ e, envMissingInput.openDocument envMissingInput.docFlag = .error e) →
        (run envMissingInput emptyWorld).2.calls = emptyWorld.calls)) :=
  ⟨no_output_on_failure (envOf threeParagraphs secondCallFails) emptyWorld (by decide)
      (Or.inr (Or.inr (by decide))),
    no_output_on_failure envMissingInput emptyWorld (by decide) (Or.inl ⟨_, rfl⟩)⟩

/-- C7, as stated, fails: a paragraph whose only run holds a single blank is
submitted to the translator and gets a row in the output table. -/
theorem whitespace_paragraph_counterexample :
    (∀ r ∈ (plain " ").runs, isBlank r.text = true) ∧
    (callsMade (envOf ⟨[plain " "], [], []⟩ suffixClient) emptyWorld).map TranslateCall.texts =
      [[" "]] ∧
    (buildOutput (envOf ⟨[plain " "], [], []⟩ suffixClient) emptyWorld).1 =
      .ok ⟨[], [], [⟨⟨some 100, some (.none, 0)⟩,
        [⟨[⟨[⟨"Normal", ⟨false⟩, [⟨" ", ⟨false⟩⟩]⟩]⟩,
           ⟨[⟨"Normal", ⟨false⟩, [⟨" (en)", ⟨false⟩⟩]⟩]⟩]⟩]⟩]⟩ :=
  ⟨by decide, by decide, rfl⟩

/-- C7, amended: a paragraph all of whose runs have empty text is discarded:
its list of extracted texts is empty, and wherever it stands in the flattened
sequence the loop behaves as if it were not there, so that no call is made
for it and no translated paragraph, hence no row, comes from it. -/
theorem empty_paragraph_discarded (p : Paragraph) (h : ∀ r ∈ p.runs, r.text = "") :
    extractTexts p = [] ∧
    ∀ (client : Client) (target : Tag) (before after : List Paragraph)
      (acc : List docParagraph) (calls : List TranslateCall),
      translateParagraphs client target (before ++ p :: after) acc calls =
        translateParagraphs client target (before ++ after) acc calls := by
  have hnil := extractTexts_of_all_empty p h
  refine ⟨hnil, ?_⟩
  intro client target before after
  induction before with
  | nil =>
    intro acc calls
    rw [List.nil_append, List.nil_append, translateParagraphs]
    simp [hnil]
  | cons q qs ih =>
    intro acc calls
    rw [List.cons_append, List.cons_append, translateParagraphs]
    conv_rhs => rw [translateParagraphs]
    simp only [ih]

/-- C7, witness: a paragraph with two empty runs. -/
theorem empty_paragraph_discarded_witness :
    extractTexts ⟨"Normal", ⟨false⟩, [⟨"", ⟨true⟩⟩, ⟨"", ⟨false⟩⟩]⟩ = [] ∧
    ∀ (client : Client) (target : Tag) (before after : List Paragraph)
      (acc : List docParagraph) (calls : List TranslateCall),
      translateParagraphs client target
          (before ++ ⟨"Normal", ⟨false⟩, [⟨"", ⟨true⟩⟩, ⟨"", ⟨false⟩⟩]⟩ :: after) acc calls =
        translateParagraphs client target (before ++ after) acc calls :=
  empty_paragraph_discarded ⟨"Normal", ⟨false⟩, [⟨"", ⟨true⟩⟩, ⟨"", ⟨false⟩⟩]⟩ (by decide)

/-- C8, as stated, fails: a document with two paragraphs `a` and `b` and a
translator that succeeds but returns two translations for one text.  No call
fails, so the claim predicts the batches `[a]` and `[b]`; only `[a]` is
submitted, because the pairing loop panics on the first reply. -/
theorem batches_truncated_counterexample :
    (∀ c ∈ callsMade (envOf ⟨[plain "a", plain "b"], [], []⟩ chattyClient) emptyWorld,
      c.failed = false) ∧
    ((flattenParagraphs ⟨[plain "a", plain "b"], [], []⟩).filter hasText).map
      (fun p => (nonEmptyRuns p).map Run.text) = [["a"], ["b"]] ∧
    (callsMade (envOf ⟨[plain "a", plain "b"], [], []⟩ chattyClient) emptyWorld).map
      TranslateCall.texts = [["a"]] :=
  ⟨by decide, by decide, by decide⟩

/-- C8, amended: when the document opens and the client is constructed, the
batches submitted are the lists of non-empty run texts of the flattened
paragraphs with text, in flattened order, one call per paragraph, up to and
including the first call that fails or whose reply holds more translations
than the batch holds texts: the batches are a leading part of that list, every
call but the last came back fitting, and either every paragraph with text was
submitted or the last call did not fit.  Every call has the target language
parsed from `en`, and no call has an empty batch. -/
theorem calls_are_batches_truncated (env : Env) (w : World) (doc : Document) (target : Tag)
    (client : Client)
    (hflag : env.docFlag ≠ "") (hopen : env.openDocument env.docFlag = .ok doc)
    (hparse : env.parseLanguage "en" = .ok target) (hclient : env.newClient = .ok client) :
    (callsMade env w).map TranslateCall.texts =
      (((flattenParagraphs doc).filter hasText).map
        (fun p => (nonEmptyRuns p).map Run.text)).take (callsMade env w).length ∧
    (∀ c ∈ callsMade env w, c.target = target ∧ c.texts ≠ []) ∧
    (∀ c ∈ (callsMade env w).dropLast, c.fits = true) ∧
    ((callsMade env w).length = ((flattenParagraphs doc).filter hasText).length ∨
      ∃ c, (callsMade env w).getLast? = some c ∧ c.fits = false) := by
  obtain ⟨htexts, htarget, hcase⟩ :=
    buildOutput_spec env w doc target client hflag hopen hparse hclient
  have hbatches : ((flattenParagraphs doc).filter hasText).map extractTexts =
      ((flattenParagraphs doc).filter hasText).map (fun p => (nonEmptyRuns p).map Run.text) :=
    List.map_congr_left (fun p _ => extractTexts_eq p)
  refine ⟨by rw [← hbatches]; exact htexts, ?_, ?_, ?_⟩
  · intro c hc
    refine ⟨htarget c hc, ?_⟩
    have hmem : c.texts ∈ (callsMade env w).map TranslateCall.texts :=
      List.mem_map_of_mem _ hc
    rw [htexts] at hmem
    obtain ⟨p, hp, hpe⟩ := List.mem_map.1 (List.mem_of_mem_take hmem)
    rw [← hpe]
    exact extractTexts_ne_nil p (List.mem_filter.1 hp).2
  · rcases hcase with ⟨-, hall, -⟩ | ⟨pre, c, hnew, hpre, -⟩
    · intro c hc
      exact hall c (List.mem_of_mem_dropLast hc)
    · rw [hnew, List.dropLast_concat]
      exact hpre
  · rcases hcase with ⟨hl, -, -⟩ | ⟨pre, c, hnew, -, hend⟩
    · exact Or.inl hl
    · refine Or.inr ⟨c, by rw [hnew]; simp, ?_⟩
      rcases hend with ⟨e, he, -⟩ | ⟨ts, len, hts, hlt, -⟩
      · simp [TranslateCall.fits, he]
      · simp [TranslateCall.fits, hts]
        omega

/-- C8, witness: three paragraphs and a translator whose second call fails;
the third paragraph is never submitted. -/
theorem calls_are_batches_truncated_witness :
    ((callsMade (envOf threeParagraphs secondCallFails) emptyWorld).map TranslateCall.texts =
      (((flattenParagraphs threeParagraphs).filter hasText).map
        (fun p => (nonEmptyRuns p).map Run.text)).take
          (callsMade (envOf threeParagraphs secondCallFails) emptyWorld).length ∧
    (∀ c ∈ callsMade (envOf threeParagraphs secondCallFails) emptyWorld,
      c.target = ⟨"en"⟩ ∧ c.texts ≠ []) ∧
    (∀ c ∈ (callsMade (envOf threeParagraphs secondCallFails) emptyWorld).dropLast,
      c.fits = true) ∧
    ((callsMade (envOf threeParagraphs secondCallFails) emptyWorld).length =
        ((flattenParagraphs threeParagraphs).filter hasText).length ∨
      ∃ c, (callsMade (envOf threeParagraphs secondCallFails) emptyWorld).getLast? = some c ∧
        c.fits = false)) ∧
    (callsMade (envOf threeParagraphs secondCallFails) emptyWorld).map TranslateCall.texts =
      [["a"], ["b"]] :=
  ⟨calls_are_batches_truncated (envOf threeParagraphs secondCallFails) emptyWorld
    threeParagraphs ⟨"en"⟩ secondCallFails (by decide) rfl rfl rfl, by decide⟩

/-- C9: on every exit path of `run` after the output file has been created,
that is with the output document built, `os.Create` successful, and the save
either successful or failed, the handle on the output file is closed and the
file holds every byte the serializer wrote to the buffered writer, none left
in the buffer: its content is the full serialization of the assembled
document.  `run` returns without error exactly when the save does.  The flush
is the one the serializer performs on the writer when it closes its archive
(hypothesis `hflush`); `run` adds the deferred close. -/
theorem output_flushed_and_closed (env : Env) (w : World) (d : Document)
    (ops : List WriterOp)
    (hbuilt : (buildOutput env w).1 = .ok d)
    (hcreate : env.createFile = Option.none)
    (hflush : (env.save d).1 = ops ++ [WriterOp.flush]) :
    (run env w).2.outputOpen = false ∧
    (run env w).2.outputFile = some (writtenBytes (env.save d).1) ∧
    ((run env w).1 = .success ∨ ∃ err, (run env w).1 = .failed (.saveDocument err)) ∧
    ((env.save d).2 = Option.none ↔ (run env w).1 = .success) := by
  have hfile : ((env.save d).1.foldl applyOp (⟨[]⟩, [])).2 = writtenBytes (env.save d).1 := by
    rw [hflush, flushed_serializer_complete]
    simp [writtenBytes, WriterOp.bytes]
  unfold run
  simp only [hbuilt]
  unfold writeOutput
  simp only [hcreate, hfile]
  cases hs : (env.save d).2 with
  | none => simp
  | some err => simp

/-- C9, witness: a document with one paragraph whose serialization is four
bytes, saved successfully, and the same with a serializer that fails after two
bytes; in both cases the file is closed and holds the bytes written. -/
theorem output_flushed_and_closed_witness :
    ((run (envOf ⟨[plain "Hello world"], [], []⟩ suffixClient) emptyWorld).1 = .success ∧
      (run (envOf ⟨[plain "Hello world"], [], []⟩ suffixClient) emptyWorld).2.outputOpen =
        false ∧
      (run (envOf ⟨[plain "Hello world"], [], []⟩ suffixClient) emptyWorld).2.outputFile =
        some [80, 75, 3, 4]) ∧
    ((run (envSaveFails ⟨[plain "Hello world"], [], []⟩ suffixClient) emptyWorld).1 =
        .failed (.saveDocument "cannot marshal") ∧
      (run (envSaveFails ⟨[plain "Hello world"], [], []⟩ suffixClient)
        emptyWorld).2.outputOpen = false ∧
      (run (envSaveFails ⟨[plain "Hello world"], [], []⟩ suffixClient)
        emptyWorld).2.outputFile = some [80, 75]) :=
  have h1 := output_flushed_and_closed (envOf ⟨[plain "Hello world"], [], []⟩ suffixClient)
    emptyWorld (assemble [builtFrom (plain "Hello world") [⟨"Hello world(en)"⟩]]).1
    [.write [80, 75, 3, 4]] rfl rfl rfl
  have h2 := output_flushed_and_closed
    (envSaveFails ⟨[plain "Hello world"], [], []⟩ suffixClient)
    emptyWorld (assemble [builtFrom (plain "Hello world") [⟨"Hello world(en)"⟩]]).1
    [.write [80, 75]] rfl rfl rfl
  ⟨⟨h1.2.2.2.1 rfl, h1.1, h1.2.1⟩, ⟨by decide, h2.1, h2.2.1⟩⟩

/-- C10: there are never more extracted texts than runs; so for a reply with
exactly one translation per submitted text every index access of the pairing
loop is in range and the loop ends normally, with one translated run per
translation; whereas for a reply longer than the batch the loop panics with an
index out of range, at the index `len(texts)`, which is out of range for
`texts`. -/
theorem pairing_indices_in_range (p : Paragraph) (ts : List Translation) :
    (extractTexts p).length ≤ p.runs.length ∧
    (ts.length = (extractTexts p).length →
      ∃ runs, pairRuns p (extractTexts p) ts = .ok runs ∧ runs.length = ts.length) ∧
    ((extractTexts p).length < ts.length →
      (∃ len, pairRuns p (extractTexts p) ts =
        .error (.panicked (extractTexts p).length len)) ∧
      (extractTexts p)[(extractTexts p).length]? = Option.none) := by
  have hle := extractTexts_length_le p
  refine ⟨hle, ?_, ?_⟩
  · intro h
    refine ⟨_, pairRuns_ok p ts (by omega), ?_⟩
    simp [builtFrom, List.length_zipWith, List.length_zip]
    omega
  · intro h
    exact ⟨pairRuns_panic p ts h, List.getElem?_eq_none (Nat.le_refl _)⟩

end Transltr
